import Mathlib

set_option maxRecDepth 100000
set_option maxHeartbeats 16000000

/-!
Shallow embedding of `zkps.py`: non-interactive zero-knowledge proofs over an
ElGamal-style encryption scheme on prime-order cyclic groups.

Big integers (`mpz`) are embedded as `Nat` (transcripts and public data are
nonnegative integers per the data model); Python `%` on possibly negative
intermediate values is embedded as `Int.emod` followed by `Int.toNat` (both
agree on the canonical nonnegative representative).  Code that can raise an
exception (`assert` statements, out-of-range list indexing, modular inversion
of a non-invertible element) is embedded as an `Option`-returning function,
`none` marking the raise.  Randomness sampled by the prover is passed in
explicitly as extra arguments (oracle streams `Nat → Nat`).
-/

/-! ### SHA-256 (pure, byte lists as `List Nat`) -/

/-- Truncate to a 32-bit word. -/
def w32 (n : Nat) : Nat := n % 4294967296

/-- Rotate a 32-bit word right by `k`. -/
def rotr32 (k n : Nat) : Nat := w32 ((n >>> k) ||| (n <<< (32 - k)))

def shaCh (x y z : Nat) : Nat := (x &&& y) ^^^ ((x ^^^ 4294967295) &&& z)

def shaMaj (x y z : Nat) : Nat := (x &&& y) ^^^ (x &&& z) ^^^ (y &&& z)

def bsig0 (x : Nat) : Nat := rotr32 2 x ^^^ rotr32 13 x ^^^ rotr32 22 x

def bsig1 (x : Nat) : Nat := rotr32 6 x ^^^ rotr32 11 x ^^^ rotr32 25 x

def ssig0 (x : Nat) : Nat := rotr32 7 x ^^^ rotr32 18 x ^^^ (x >>> 3)

def ssig1 (x : Nat) : Nat := rotr32 17 x ^^^ rotr32 19 x ^^^ (x >>> 10)

/-- The 64 SHA-256 round constants, packed big-endian into one integer (the
standard K[0..63] table). -/
def shaKPacked : Nat := 0x428a2f9871374491b5c0fbcfe9b5dba53956c25b59f111f1923f82a4ab1c5ed5d807aa9812835b01243185be550c7dc372be5d7480deb1fe9bdc06a7c19bf174e49b69c1efbe47860fc19dc6240ca1cc2de92c6f4a7484aa5cb0a9dc76f988da983e5152a831c66db00327c8bf597fc7c6e00bf3d5a7914706ca63511429296727b70a852e1b21384d2c6dfc53380d13650a7354766a0abb81c2c92e92722c85a2bfe8a1a81a664bc24b8b70c76c51a3d192e819d6990624f40e3585106aa07019a4c1161e376c082748774c34b0bcb5391c0cb34ed8aa4a5b9cca4f682e6ff3748f82ee78a5636f84c878148cc7020890befffaa4506cebbef9a3f7c67178f2

def mask32 : Nat := 4294967295

def mask512 : Nat := 13407807929942597099574024998205846127479365820592393377723561443721764030073546976801874298166903427690031858186486050853753882811946569946433649006084095

/-- The `t`-th SHA-256 round constant. -/
def shaKAt (t : Nat) : Nat := (shaKPacked >>> (32 * (63 - t))) &&& mask32

/-- Pack a byte list into one big-endian integer. -/
def packBytesBE (bs : List Nat) : Nat := bs.foldl (fun acc b => acc * 256 + b) 0

/-- Running hash state: eight 32-bit words. -/
structure Hash8 where
  s0 : Nat
  s1 : Nat
  s2 : Nat
  s3 : Nat
  s4 : Nat
  s5 : Nat
  s6 : Nat
  s7 : Nat
deriving Repr, DecidableEq

/-- SHA-256 initial hash value. -/
def shaH0 : Hash8 :=
  ⟨0x6a09e667, 0xbb67ae85, 0x3c6ef372, 0xa54ff53a, 0x510e527f, 0x9b05688c, 0x1f83d9ab, 0x5be0cd19⟩

/-- One round of the SHA-256 compression function. -/
def shaRound (s : Hash8) (kw : Nat × Nat) : Hash8 :=
  let T1 := w32 (s.s7 + bsig1 s.s4 + shaCh s.s4 s.s5 s.s6 + kw.1 + kw.2)
  let T2 := w32 (bsig0 s.s0 + shaMaj s.s0 s.s1 s.s2)
  ⟨w32 (T1 + T2), s.s0, s.s1, s.s2, w32 (s.s3 + T1), s.s4, s.s5, s.s6⟩

/-- SHA-256 padding (`0x80`, zeros to 56 mod 64, 64-bit big-endian message
bit length): the padded message packed big-endian, with its block count. -/
def shaPadNat (bs : List Nat) : Nat × Nat :=
  let L := bs.length
  let nb := (L + 9 + 63) / 64
  let zeroBytes := 64 * nb - L - 9
  ((((packBytesBE bs * 256 + 128) <<< (8 * zeroBytes)) <<< 64)
      ||| (8 * L % 18446744073709551616),
    nb)

/-- The `W`-th 32-bit word (big-endian word order) of a packed message of
`totalWords` words. -/
def wordAt (P totalWords W : Nat) : Nat := (P >>> (32 * (totalWords - W - 1))) &&& mask32

/-- The word `k + 1` rounds back in the 16-word sliding schedule window. -/
def wnd (window k : Nat) : Nat := (window >>> (32 * k)) &&& mask32

/-- Compress block `b` of the packed message into the running state, the
message schedule expanded on the fly through a sliding 16-word window. -/
def shaBlock (P totalWords b : Nat) (s : Hash8) : Hash8 :=
  let r := (List.range 64).foldl
    (fun acc t =>
      let w := if t < 16 then wordAt P totalWords (16 * b + t)
        else w32 (ssig1 (wnd acc.2 1) + wnd acc.2 6 + ssig0 (wnd acc.2 14) + wnd acc.2 15)
      (shaRound acc.1 (shaKAt t, w), ((acc.2 <<< 32) ||| w) &&& mask512))
    (s, 0)
  ⟨w32 (s.s0 + r.1.s0), w32 (s.s1 + r.1.s1), w32 (s.s2 + r.1.s2), w32 (s.s3 + r.1.s3),
   w32 (s.s4 + r.1.s4), w32 (s.s5 + r.1.s5), w32 (s.s6 + r.1.s6), w32 (s.s7 + r.1.s7)⟩

/-- Serialize a 32-bit word as four big-endian bytes. -/
def wordBytesBE (n : Nat) : List Nat :=
  [(n >>> 24) &&& 255, (n >>> 16) &&& 255, (n >>> 8) &&& 255, n &&& 255]

/-- The 32-byte SHA-256 digest of a byte-list message. -/
def sha256 (msg : List Nat) : List Nat :=
  let pr := shaPadNat msg
  let s := (List.range pr.2).foldl (fun st b => shaBlock pr.1 (16 * pr.2) b st) shaH0
  wordBytesBE s.s0 ++ wordBytesBE s.s1 ++ wordBytesBE s.s2 ++ wordBytesBE s.s3
    ++ wordBytesBE s.s4 ++ wordBytesBE s.s5 ++ wordBytesBE s.s6 ++ wordBytesBE s.s7

/-- Sanity: SHA-256 of the three bytes of "abc" matches the FIPS 180 test vector. -/
theorem sha256_abc_vector :
    sha256 [97, 98, 99] =
      [186, 120, 22, 191, 143, 1, 207, 234, 65, 65, 64, 222, 93, 174, 34, 35,
       176, 3, 97, 163, 150, 23, 122, 156, 180, 16, 255, 97, 242, 0, 21, 173] := by
  decide

/-- Sanity: SHA-256 of the empty message matches the standard test vector. -/
theorem sha256_empty_vector :
    sha256 [] =
      [227, 176, 196, 66, 152, 252, 28, 20, 154, 251, 244, 200, 153, 111, 185, 36,
       39, 174, 65, 228, 100, 155, 147, 76, 164, 149, 153, 27, 120, 82, 184, 85] := by
  decide

/-- Sanity: a 56-byte message (the padding spills into a second block)
hashes to the reference digest. -/
theorem sha256_pad_boundary_vector :
    sha256 (List.replicate 56 97) =
      [179, 84, 57, 164, 172, 111, 9, 72, 182, 214, 249, 227, 198, 175, 15, 95,
       89, 12, 226, 15, 27, 222, 112, 144, 239, 121, 112, 104, 110, 198, 115, 138] := by decide

/-- Sanity: a 200-byte (four-block) message hashes to the reference digest. -/
theorem sha256_multiblock_vector :
    sha256 ((List.range 200).map fun i => (i * 7 + 3) % 256) =
      [44, 126, 24, 201, 66, 239, 6, 91, 82, 106, 45, 78, 85, 70, 40, 55,
       73, 205, 61, 223, 181, 29, 143, 199, 31, 66, 113, 115, 99, 104, 95, 70] := by decide

/-! ### Decimal encoding and digest interpretation -/

/-- ASCII decimal digits of `n`, most significant first (fuel-based); embeds
`mpz.digits()` followed by `.encode()` for a nonnegative value. -/
def mpzDigitsAux : Nat → Nat → List Nat
  | 0, _ => []
  | fuel + 1, n => if n < 10 then [n + 48] else mpzDigitsAux fuel (n / 10) ++ [n % 10 + 48]

/-- The canonical decimal-ASCII encoding of a nonnegative integer. -/
def mpzDigits (n : Nat) : List Nat := mpzDigitsAux (n + 1) n

/-- `int.from_bytes(digest, byteorder=little)`: read a byte list as a
little-endian unsigned integer. -/
def fromBytesLE : List Nat → Nat
  | [] => 0
  | b :: bs => b + 256 * fromBytesLE bs

/-! ### External group and ciphertext model

Modelled from the spec: the `SchnorrGroup` class of `integer.py` is not part
of the covered source; the spec describes it as a prime-order cyclic group
exposing a prime modulus `p`, a prime order `q`, modular exponentiation and an
element-membership test.  `powmod` with a nonnegative exponent is plain
modular exponentiation; the only negative exponent the covered code uses is
`-1` (modular inversion), which for a prime modulus is Fermat inversion and
raises when the base is not invertible — call sites guard with a gcd test and
return `none` in that case. -/
structure SchnorrGroup where
  p : Nat
  q : Nat
deriving Repr, DecidableEq

/-- Modelled from the spec: modular exponentiation in the group. -/
def SchnorrGroup.powmod (G : SchnorrGroup) (base e : Nat) : Nat := base ^ e % G.p

/-- Modelled from the spec: the group order. -/
def SchnorrGroup.order (G : SchnorrGroup) : Nat := G.q

/-- Modelled from the spec: `powmod(base, -1)`, modular inversion for a prime
modulus (Fermat); meaningful at call sites only after a `gcd = 1` guard. -/
def SchnorrGroup.invmod (G : SchnorrGroup) (base : Nat) : Nat := base ^ (G.p - 2) % G.p

/-- Modelled from the spec: the element-membership test of the group (a
nonzero residue whose `q`-th power is the identity). -/
def SchnorrGroup.is_element (G : SchnorrGroup) (x : Nat) : Bool :=
  decide (0 < x) && decide (x < G.p) && (x ^ G.q % G.p == 1)

/-- Modelled from the spec: an ElGamal ciphertext is a pair `(a, b)` of group
elements (the group itself is passed alongside, as the key's `G_q`). -/
structure ElGamalCiphertext where
  a : Nat
  b : Nat
deriving Repr, DecidableEq

/-! ### Fiat-Shamir challenge derivation (`hashfunc`, `hashfunc_bits`) -/

/-- `hashfunc`: concatenate the decimal encodings of `values`, hash with
SHA-256, read the digest little-endian, and reduce modulo the group order. -/
def hashfunc (G_q : SchnorrGroup) (values : List Nat) : Nat :=
  fromBytesLE (sha256 (values.flatMap mpzDigits)) % G_q.order

/-- `hashfunc_bits`: same encoding and hash; expand the digest into bits,
least-significant bit first within each byte, in byte order. -/
def hashfunc_bits (values : List Nat) : List Nat :=
  (sha256 (values.flatMap mpzDigits)).flatMap fun b => (List.range 8).map fun i => (b >>> i) &&& 1

/-- Sanity: `hashfunc` agrees with a reference SHA-256 implementation on a
ten-value input over a group of order 11. -/
theorem hashfunc_vector_1 :
    hashfunc ⟨23, 11⟩ [3, 6, 12, 9, 13, 18, 18, 2, 6, 6] = 8 := by decide

/-- Sanity: `hashfunc` agrees with a reference SHA-256 implementation on a
multi-digit input over a group of order 101. -/
theorem hashfunc_vector_2 :
    hashfunc ⟨1000, 101⟩ [0, 1000000007, 42] = 30 := by decide

/-- Sanity: the first 24 entries of `hashfunc_bits` on a five-value input
agree with a reference implementation. -/
theorem hashfunc_bits_vector :
    (hashfunc_bits [4, 3, 9, 9, 3]).take 24 =
      [0, 1, 0, 1, 0, 1, 1, 0, 1, 1, 0, 0, 0, 1, 1, 0, 0, 0, 0, 0, 0, 1, 0, 0] := by decide

/-! ### Chaum-Pedersen DLEQ proof -/

/-- `proof_dleq`: the Chaum-Pedersen equality-of-discrete-logs prover.  The
sampled randomness `w` is passed explicitly. -/
def proof_dleq (G_q : SchnorrGroup) (g_1 h_1 g_2 h_2 alpha : Nat) (w : Nat) :
    Nat × Nat × Nat :=
  let t_1 := G_q.powmod g_1 w
  let t_2 := G_q.powmod g_2 w
  let c := hashfunc G_q [h_1, h_2, t_1, t_2]
  let res := (((w : Int) - (alpha : Int) * (c : Int)).emod (G_q.q : Int)).toNat
  (t_1, t_2, res)

/-- `verify_dleq`: the Chaum-Pedersen verifier; a total boolean function. -/
def verify_dleq (G_q : SchnorrGroup) (proof : Nat × Nat × Nat) (g_1 h_1 g_2 h_2 : Nat) :
    Bool :=
  let t_1 := proof.1
  let t_2 := proof.2.1
  let res := proof.2.2
  let c := hashfunc G_q [h_1, h_2, t_1, t_2]
  (t_1 == G_q.powmod g_1 res * G_q.powmod h_1 c % G_q.p)
    && (t_2 == G_q.powmod g_2 res * G_q.powmod h_2 c % G_q.p)

/-! ### Disjunctive plaintext-equality proof -/

/-- Python list indexing semantics: a nonnegative index must be below the
length, a negative index counts from the end; anything else raises. -/
def pyNorm (j : Int) (n : Nat) : Option Nat :=
  if 0 ≤ j ∧ j < (n : Int) then some j.toNat
  else if -(n : Int) ≤ j ∧ j < 0 then some ((n : Int) + j).toNat
  else none

/-- The hash-input list of the OR proof: `c.a`, the alternatives' `a`
components, `c.b`, the alternatives' `b` components, then all commitment
firsts and all commitment seconds. -/
def orHashInput (a b : Nat) (c_prime : List ElGamalCiphertext) (t : List (Nat × Nat)) :
    List Nat :=
  [a] ++ c_prime.map (fun cp => cp.a) ++ [b] ++ c_prime.map (fun cp => cp.b)
    ++ t.map (fun ti => ti.1) ++ t.map (fun ti => ti.2)

/-- One forged (simulated) commitment pair of the OR prover, at index `i`:
the matching commitment for the randomly drawn response `simRes i` and
sub-challenge `simCh i`. -/
def orForge (G_q : SchnorrGroup) (g y a b : Nat) (c_prime : List ElGamalCiphertext)
    (simRes simCh : Nat → Nat) (i : Nat) : Nat × Nat :=
  (G_q.powmod g (simRes i) * G_q.powmod ((c_prime.getD i ⟨0, 0⟩).a * G_q.invmod a) (simCh i) % G_q.p,
   G_q.powmod y (simRes i) * G_q.powmod ((c_prime.getD i ⟨0, 0⟩).b * G_q.invmod b) (simCh i) % G_q.p)

/-- The commitment list of the OR prover after the simulation loop: the real
commitment written at `t[j]` survives only where the loop (Python's `i == j`
compares `i` against the raw, possibly negative, `j`) does not overwrite it. -/
def orT (G_q : SchnorrGroup) (g y a b : Nat) (c_prime : List ElGamalCiphertext)
    (j : Int) (w_j : Nat) (simRes simCh : Nat → Nat) : List (Nat × Nat) :=
  (List.range c_prime.length).map fun i =>
    if Int.ofNat i = j then (G_q.powmod g w_j, G_q.powmod y w_j)
    else orForge G_q g y a b c_prime simRes simCh i

/-- The sub-challenge list after the simulation loop (the slot at a
nonnegative `j` still holds its `None` placeholder, embedded as `0`; it is
never read and is overwritten before the transcript is returned). -/
def orMidCh (n : Nat) (j : Int) (simCh : Nat → Nat) : List Nat :=
  (List.range n).map fun i => if Int.ofNat i = j then 0 else simCh i

/-- The response list after the simulation loop, placeholder as in `orMidCh`. -/
def orMidRes (n : Nat) (j : Int) (simRes : Nat → Nat) : List Nat :=
  (List.range n).map fun i => if Int.ofNat i = j then 0 else simRes i

/-- `sum(challenges[i] for i in range(len(challenges)) if i != j)`. -/
def orOthersSum (n : Nat) (j : Int) (simCh : Nat → Nat) : Nat :=
  (((List.range n).filter fun i => Int.ofNat i ≠ j).map
    fun i => (orMidCh n j simCh).getD i 0).sum

/-- `proof_plaintext_equality_or`: the 1-of-n OR prover.  `g`/`y` are the key,
`(a, b)` the ciphertext `c`, `j` the (Python `int`) index of the plaintext
equal alternative.  The sampled randomness is explicit: `w_j` for the real
commitment, `simRes`/`simCh` as oracle streams for the simulated branches.
`none` embeds an uncaught exception (`IndexError` at `t[j]`, or
`ZeroDivisionError` inverting a non-invertible `c.a`/`c.b`). -/
def proof_plaintext_equality_or (G_q : SchnorrGroup) (g y a b : Nat) (r : Nat)
    (c_prime : List ElGamalCiphertext) (j : Int) (r_j : Nat)
    (w_j : Nat) (simRes simCh : Nat → Nat) :
    Option (List (Nat × Nat) × List Nat × List Nat) :=
  let n := c_prime.length
  match pyNorm j n with
  | none => none
  | some jhat =>
    if Nat.gcd a G_q.p ≠ 1 ∨ Nat.gcd b G_q.p ≠ 1 then none
    else
      let t := orT G_q g y a b c_prime j w_j simRes simCh
      let challenge := hashfunc G_q (orHashInput a b c_prime t)
      let ch_j := (((challenge : Int) - (orOthersSum n j simCh : Int)).emod
        (G_q.p : Int)).toNat
      let res_j := (((w_j : Int) - ((r_j : Int) - (r : Int)) * (ch_j : Int)).emod
        (G_q.order : Int)).toNat
      some (t, (orMidRes n j simRes).set jhat res_j, (orMidCh n j simCh).set jhat ch_j)

/-- `verify_plaintext_equality_or`: the OR verifier.  `none` embeds the
`AssertionError` raised when the transcript arity does not match the number of
alternatives, or a failed inversion of `c.a`/`c.b`. -/
def verify_plaintext_equality_or (G_q : SchnorrGroup)
    (proof : List (Nat × Nat) × List Nat × List Nat) (g y a b : Nat)
    (c_prime : List ElGamalCiphertext) : Option Bool :=
  let t := proof.1
  let res := proof.2.1
  let challenges := proof.2.2
  if ¬(challenges.length = res.length ∧ res.length = t.length ∧ t.length = c_prime.length) then
    none
  else
    let challenge := hashfunc G_q (orHashInput a b c_prime t)
    let b_sum := challenge == challenges.sum % G_q.p
    if Nat.gcd a G_q.p ≠ 1 ∨ Nat.gcd b G_q.p ≠ 1 then none
    else
      let a_inv := G_q.invmod a
      let b_inv := G_q.invmod b
      let checks := (t.zip ((res.zip challenges).zip c_prime)).map
        fun titem =>
          let ti1 := titem.1.1
          let ti2 := titem.1.2
          let res_i := titem.2.1.1
          let challenge_i := titem.2.1.2
          let cp_i := titem.2.2
          (ti1 == G_q.powmod g res_i * G_q.powmod (cp_i.a * a_inv) challenge_i % G_q.p)
            && (ti2 == G_q.powmod y res_i * G_q.powmod (cp_i.b * b_inv) challenge_i % G_q.p)
      some (b_sum && checks.all id)

/-! ### Plaintext discrete-log knowledge proof (verifier) -/

/-- `verify_plaintext_dlog`: verifier of the two-relation conjunctive Schnorr
proof that the plaintext of `(a, b)` is `h ^ x` for a known `x`. -/
def verify_plaintext_dlog (G_q : SchnorrGroup) (g y a b : Nat)
    (proof : Nat × Nat × Nat × Nat) (h : Nat) : Bool :=
  let t_1 := proof.1
  let t_2 := proof.2.1
  let res1 := proof.2.2.1
  let res2 := proof.2.2.2
  let challenge := hashfunc G_q [g, h, y, t_1, t_2, a, b]
  ((G_q.powmod h res1 * G_q.powmod y res2 % G_q.p) == (t_1 * G_q.powmod b challenge % G_q.p))
    && (G_q.powmod g res2 == (t_2 * G_q.powmod a challenge % G_q.p))

/-! ### Discrete-log / double-discrete-log equality proof -/

/-- The preconditions asserted by both sides of the double-discrete-log
protocol: nested moduli and element membership. -/
def ddlPreconds (G_q G_r : SchnorrGroup) (g h y A B : Nat) : Prop :=
  G_q.p = G_r.p * 2 + 1 ∧ G_q.is_element g = true ∧ G_q.is_element B = true
    ∧ G_r.is_element h = true ∧ G_r.is_element y = true ∧ G_r.is_element A = true

instance (G_q G_r : SchnorrGroup) (g h y A B : Nat) :
    Decidable (ddlPreconds G_q G_r g h y A B) := by
  unfold ddlPreconds; infer_instance

/-- `proof_dl_equal_ddl`: the 256-round bit-level prover; the per-round
randomness is the explicit oracle stream `w`.  `none` embeds an
`AssertionError` from the precondition asserts. -/
def proof_dl_equal_ddl (G_q G_r : SchnorrGroup) (g h y A B x : Nat) (w : Nat → Nat) :
    Option (List Nat × List Nat) :=
  if ¬ddlPreconds G_q G_r g h y A B then none
  else
    let t_g := (List.range 256).map fun i => G_q.powmod g (G_r.powmod y (w i))
    let t_h := (List.range 256).map fun i => G_r.powmod h (w i)
    let c := hashfunc_bits ([g, h, y, A, B] ++ t_g ++ t_h)
    let r := (c.zip ((List.range 256).map w)).map fun ci_wi =>
      (((ci_wi.2 : Int) - (ci_wi.1 : Int) * (x : Int)).emod (G_r.order : Int)).toNat
    some (c, r)

/-- `verify_dl_equal_ddl`: the 256-round verifier; recomputes the commitments
from the paired iteration over `r` and `c` (silently truncating to the shorter
list) and compares the recomputed challenge bits with the supplied ones.
`none` embeds an `AssertionError` from the precondition asserts. -/
def verify_dl_equal_ddl (proof : List Nat × List Nat) (G_q G_r : SchnorrGroup)
    (g h y A B : Nat) : Option Bool :=
  if ¬ddlPreconds G_q G_r g h y A B then none
  else
    let c := proof.1
    let r := proof.2
    let t_g := (r.zip c).map fun ri_ci =>
      G_q.powmod (if ri_ci.2 ≠ 0 then B else g) (G_r.powmod y ri_ci.1)
    let t_h := (r.zip c).map fun ri_ci =>
      G_r.powmod h ri_ci.1 * G_r.powmod A ri_ci.2 % G_r.p
    let c_new := hashfunc_bits ([g, h, y, A, B] ++ t_g ++ t_h)
    some (c == c_new)

/-! ### Reference definitions written from the words of the specification -/

/-- Written from the spec: the canonical decimal-digit ASCII encoding of a
nonnegative integer — no sign, no separators, no leading zeros except the
single digit of zero itself (via Mathlib's positional `Nat.digits`). -/
def decEncSpec (n : Nat) : List Nat :=
  if n = 0 then [48] else (Nat.digits 10 n).reverse.map fun d => d + 48

/-- Written from the spec: interpret a byte list as an unsigned integer in
little-endian byte order (positional sum of `byte_i * 256 ^ i`). -/
def leValSpec (bs : List Nat) : Nat :=
  ∑ i ∈ Finset.range bs.length, bs.getD i 0 * 256 ^ i

/-- Written from the spec: `scalar_challenge` — encode, concatenate in
argument order, SHA-256, little-endian digest value, reduce mod the order. -/
def scalar_challenge_spec (G_q : SchnorrGroup) (values : List Nat) : Nat :=
  leValSpec (sha256 (values.flatMap decEncSpec)) % G_q.q

/-- Written from the spec: `bit_challenge` — identical encoding and hashing,
digest expanded into exactly 256 bits, least-significant bit first within
each byte, in byte order. -/
def bit_challenge_spec (values : List Nat) : List Nat :=
  let digest := sha256 (values.flatMap decEncSpec)
  (List.range 256).map fun i => if (digest.getD (i / 8) 0).testBit (i % 8) then 1 else 0

lemma mpzDigitsAux_eq_decEncSpec : ∀ fuel n, n < fuel → mpzDigitsAux fuel n = decEncSpec n := by
  intro fuel
  induction fuel with
  | zero => intro n hn; omega
  | succ f ih =>
    intro n hn
    by_cases h10 : n < 10
    · unfold mpzDigitsAux
      simp only [if_pos h10]
      by_cases h0 : n = 0
      · subst h0; simp [decEncSpec]
      · have hdig : Nat.digits 10 n = [n] := by
          rw [Nat.digits_def' (by norm_num : (1 : Nat) < 10) (Nat.pos_of_ne_zero h0),
            Nat.mod_eq_of_lt h10, Nat.div_eq_of_lt h10, Nat.digits_zero]
        simp [decEncSpec, h0, hdig]
    · unfold mpzDigitsAux
      simp only [if_neg h10]
      have hlt : n / 10 < n := Nat.div_lt_self (by omega) (by norm_num)
      rw [ih (n / 10) (by omega)]
      have h0 : 0 < n := by omega
      have hd0 : 0 < n / 10 := (Nat.one_le_div_iff (by norm_num)).2 (by omega)
      rw [decEncSpec, decEncSpec, if_neg (by omega), if_neg (by omega),
        Nat.digits_def' (by norm_num : (1 : Nat) < 10) h0]
      simp

lemma mpzDigits_eq_decEncSpec : mpzDigits = decEncSpec :=
  funext fun n => mpzDigitsAux_eq_decEncSpec (n + 1) n (by omega)

lemma fromBytesLE_eq_leValSpec : ∀ bs, fromBytesLE bs = leValSpec bs := by
  intro bs
  induction bs with
  | nil => simp [fromBytesLE, leValSpec]
  | cons b t ih =>
    rw [fromBytesLE, ih, leValSpec, leValSpec, List.length_cons, Finset.sum_range_succ']
    simp only [List.getD_cons_succ, List.getD_cons_zero, pow_zero, mul_one, pow_succ]
    rw [Finset.mul_sum, add_comm]
    congr 1
    exact Finset.sum_congr rfl fun x _ => by ring

lemma bitExtract_eq (b i : Nat) : (b >>> i) &&& 1 = if b.testBit i then 1 else 0 := by
  rw [Nat.and_one_is_mod, Nat.shiftRight_eq_div_pow, Nat.testBit_to_div_mod]
  rcases Nat.mod_two_eq_zero_or_one (b / 2 ^ i) with h | h <;> simp [h]

lemma flatMapBits_eq (bs : List Nat) :
    (bs.flatMap fun b => (List.range 8).map fun i => (b >>> i) &&& 1)
      = (List.range (8 * bs.length)).map
          fun i => if (bs.getD (i / 8) 0).testBit (i % 8) then 1 else 0 := by
  induction bs with
  | nil => simp
  | cons b t ih =>
    rw [List.flatMap_cons, ih]
    have h8 : 8 * (b :: t).length = 8 + 8 * t.length := by
      rw [List.length_cons]; ring
    rw [h8, List.range_add, List.map_append, List.map_map]
    congr 1
    · apply List.map_congr_left
      intro i hi
      rw [List.mem_range] at hi
      rw [bitExtract_eq, Nat.div_eq_of_lt hi, Nat.mod_eq_of_lt hi, List.getD_cons_zero]
    · apply List.map_congr_left
      intro i hi
      simp only [Function.comp_apply]
      have hd : (8 + i) / 8 = i / 8 + 1 := by omega
      have hm : (8 + i) % 8 = i % 8 := by omega
      rw [hd, hm, List.getD_cons_succ]

lemma sha256_length (msg : List Nat) : (sha256 msg).length = 32 := by
  simp [sha256, wordBytesBE]

lemma hashfunc_bits_length (values : List Nat) : (hashfunc_bits values).length = 256 := by
  rw [hashfunc_bits, flatMapBits_eq, List.length_map, List.length_range, sha256_length]

/-- C5: `scalar_challenge` (`hashfunc`) equals the reference definition built
from the spec's words: canonical decimal-digit ASCII encoding of each value,
concatenation in argument order, SHA-256, digest read as a little-endian
unsigned integer, reduction modulo the group order.  Determinism on identical
ordered input is immediate since both sides are pure functions. -/
theorem C5_hashfunc_eq_spec (G_q : SchnorrGroup) (values : List Nat) :
    hashfunc G_q values = scalar_challenge_spec G_q values := by
  rw [hashfunc, scalar_challenge_spec, fromBytesLE_eq_leValSpec, mpzDigits_eq_decEncSpec]
  rfl

/-- C6: `bit_challenge` (`hashfunc_bits`) uses the same decimal encoding and
SHA-256 as `scalar_challenge` and expands the digest into exactly 256 values
in `{0, 1}`, in digest byte order, least-significant bit first in each byte
(the reference `bit_challenge_spec` is written from the spec's words). -/
theorem C6_hashfunc_bits_eq_spec (values : List Nat) :
    hashfunc_bits values = bit_challenge_spec values
      ∧ (hashfunc_bits values).length = 256
      ∧ ∀ x ∈ hashfunc_bits values, x = 0 ∨ x = 1 := by
  refine ⟨?_, hashfunc_bits_length values, ?_⟩
  · rw [hashfunc_bits, flatMapBits_eq, bit_challenge_spec, mpzDigits_eq_decEncSpec,
      sha256_length]
  · intro x hx
    simp only [hashfunc_bits, List.mem_flatMap, List.mem_map, List.mem_range] at hx
    obtain ⟨b, _, i, _, rfl⟩ := hx
    rw [bitExtract_eq]
    by_cases h : b.testBit i <;> simp [h]

/-! ### C7, C8: verifier characterizations -/

/-- C7: `verify_dleq` accepts a transcript `(t1, t2, res)` for public data
`(g1, h1, g2, h2)` iff, with `c = scalar_challenge([h1, h2, t1, t2])`, both
`t1 ≡ g1^res * h1^c (mod p)` and `t2 ≡ g2^res * h2^c (mod p)` hold; the
function is total (a boolean, never an exception), a mismatched equation
yields `false`.  The transcript entries are group elements, hence reduced
residues (`t1, t2 < p`). -/
theorem C7_verify_dleq_iff (G_q : SchnorrGroup) (t_1 t_2 res g_1 h_1 g_2 h_2 : Nat)
    (ht1 : t_1 < G_q.p) (ht2 : t_2 < G_q.p) :
    verify_dleq G_q (t_1, t_2, res) g_1 h_1 g_2 h_2 = true ↔
      (Nat.ModEq G_q.p t_1 (g_1 ^ res * h_1 ^ hashfunc G_q [h_1, h_2, t_1, t_2])
        ∧ Nat.ModEq G_q.p t_2 (g_2 ^ res * h_2 ^ hashfunc G_q [h_1, h_2, t_1, t_2])) := by
  simp only [verify_dleq, SchnorrGroup.powmod, Bool.and_eq_true, beq_iff_eq]
  unfold Nat.ModEq
  rw [Nat.mod_eq_of_lt ht1, Nat.mod_eq_of_lt ht2, ← Nat.mul_mod, ← Nat.mul_mod]

/-- Witness for C7 at a concrete group and transcript. -/
theorem C7_verify_dleq_iff_witness :
    (18 : Nat) < 23 ∧ (6 : Nat) < 23 ∧
      (verify_dleq ⟨23, 11⟩ (18, 6, 0) 4 2 8 6 = true ↔
        (Nat.ModEq 23 18 (4 ^ 0 * 2 ^ hashfunc ⟨23, 11⟩ [2, 6, 18, 6])
          ∧ Nat.ModEq 23 6 (8 ^ 0 * 6 ^ hashfunc ⟨23, 11⟩ [2, 6, 18, 6]))) :=
  ⟨by decide, by decide, C7_verify_dleq_iff ⟨23, 11⟩ 18 6 0 4 2 8 6 (by decide) (by decide)⟩

/-- C8: `verify_plaintext_dlog` accepts `(t1, t2, res1, res2)` for key
`(g, y)`, ciphertext `(a, b)` and base `h` iff, with
`challenge = scalar_challenge([g, h, y, t1, t2, a, b])`, both
`h^res1 * y^res2 ≡ t1 * b^challenge (mod p)` and
`g^res2 ≡ t2 * a^challenge (mod p)` hold. -/
theorem C8_verify_plaintext_dlog_iff (G_q : SchnorrGroup)
    (g y a b t_1 t_2 res1 res2 h : Nat) :
    verify_plaintext_dlog G_q g y a b (t_1, t_2, res1, res2) h = true ↔
      (Nat.ModEq G_q.p (h ^ res1 * y ^ res2)
          (t_1 * b ^ hashfunc G_q [g, h, y, t_1, t_2, a, b])
        ∧ Nat.ModEq G_q.p (g ^ res2)
            (t_2 * a ^ hashfunc G_q [g, h, y, t_1, t_2, a, b])) := by
  simp only [verify_plaintext_dlog, SchnorrGroup.powmod, Bool.and_eq_true, beq_iff_eq]
  unfold Nat.ModEq
  rw [← Nat.mul_mod, Nat.mul_mod_mod, Nat.mul_mod_mod]

/-! ### C4: DLEQ completeness -/

lemma pow_congr_mod_order (p q g a b : Nat)
    (hg : g ^ q % p = 1 % p) (hab : a % q = b % q) : g ^ a % p = g ^ b % p := by
  have key : ∀ m, g ^ m % p = g ^ (m % q) % p := by
    intro m
    conv_lhs => rw [← Nat.div_add_mod m q]
    calc g ^ (q * (m / q) + m % q) % p
        = (g ^ q) ^ (m / q) * g ^ (m % q) % p := by rw [pow_add, pow_mul]
      _ = (g ^ q) ^ (m / q) % p * (g ^ (m % q) % p) % p := Nat.mul_mod _ _ _
      _ = (g ^ q % p) ^ (m / q) % p * (g ^ (m % q) % p) % p := by rw [← Nat.pow_mod]
      _ = (1 % p) ^ (m / q) % p * (g ^ (m % q) % p) % p := by rw [hg]
      _ = 1 ^ (m / q) % p * (g ^ (m % q) % p) % p := by rw [← Nat.pow_mod]
      _ = 1 % p * (g ^ (m % q) % p) % p := by rw [one_pow]
      _ = 1 * g ^ (m % q) % p := by rw [← Nat.mul_mod]
      _ = g ^ (m % q) % p := by rw [one_mul]
  rw [key a, key b, hab]

lemma dleq_branch (p q g alpha c w : Nat) (hq : 0 < q) (hg : g ^ q % p = 1 % p) :
    g ^ w % p = g ^ ((((w : Int) - (alpha : Int) * (c : Int)).emod (q : Int)).toNat) % p
      * ((g ^ alpha % p) ^ c % p) % p := by
  rw [← Nat.pow_mod, ← pow_mul, ← Nat.mul_mod, ← pow_add]
  apply pow_congr_mod_order p q g w _ hg
  rw [show ((alpha : Int) * (c : Int)) = ((alpha * c : Nat) : Int) from by push_cast; ring]
  generalize alpha * c = k
  have hqz : (q : Int) ≠ 0 := Int.natCast_ne_zero.mpr (by omega)
  have h0 : 0 ≤ ((w : Int) - (k : Int)).emod (q : Int) := Int.emod_nonneg _ hqz
  have key : (↑(w % q) : Int) = ↑(((((w : Int) - (k : Int)).emod (q : Int)).toNat + k) % q) := by
    rw [Int.natCast_mod, Int.natCast_mod]
    push_cast [Int.toNat_of_nonneg h0]
    show ((w : Int)) % (q : Int) = (((w : Int) - (k : Int)) % (q : Int) + (k : Int)) % (q : Int)
    rw [Int.emod_add_emod]
    congr 1
    ring
  exact_mod_cast key

/-- C4: completeness round-trip for the base DLEQ protocol.  For a group of
prime order `q` (elements `g1`, `g2` of order dividing `q`), every secret
`alpha` and every sampled randomness `w` in `[0, q)`, `verify_dleq` accepts
the transcript produced by `proof_dleq` on `(g1, g1^alpha, g2, g2^alpha)`
with the same public inputs. -/
theorem C4_dleq_completeness (G_q : SchnorrGroup) (g_1 g_2 alpha w : Nat)
    (hq : 0 < G_q.q) (hg1 : g_1 ^ G_q.q % G_q.p = 1 % G_q.p)
    (hg2 : g_2 ^ G_q.q % G_q.p = 1 % G_q.p) (_hw : w < G_q.q) :
    verify_dleq G_q
      (proof_dleq G_q g_1 (G_q.powmod g_1 alpha) g_2 (G_q.powmod g_2 alpha) alpha w)
      g_1 (G_q.powmod g_1 alpha) g_2 (G_q.powmod g_2 alpha) = true := by
  simp only [proof_dleq, verify_dleq, SchnorrGroup.powmod, Bool.and_eq_true, beq_iff_eq]
  constructor
  · exact dleq_branch G_q.p G_q.q g_1 alpha _ w hq hg1
  · exact dleq_branch G_q.p G_q.q g_2 alpha _ w hq hg2

/-- Witness for C4 at the toy group `p = 23`, `q = 11`, `g1 = 4`, `g2 = 8`,
`alpha = 3`, `w = 5`. -/
theorem C4_dleq_completeness_witness :
    0 < (11 : Nat) ∧ 4 ^ 11 % 23 = 1 % 23 ∧ 8 ^ 11 % 23 = 1 % 23 ∧ (5 : Nat) < 11 ∧
      verify_dleq ⟨23, 11⟩
        (proof_dleq ⟨23, 11⟩ 4 (SchnorrGroup.powmod ⟨23, 11⟩ 4 3) 8
          (SchnorrGroup.powmod ⟨23, 11⟩ 8 3) 3 5)
        4 (SchnorrGroup.powmod ⟨23, 11⟩ 4 3) 8 (SchnorrGroup.powmod ⟨23, 11⟩ 8 3) = true :=
  ⟨by decide, by decide, by decide, by decide,
    C4_dleq_completeness ⟨23, 11⟩ 4 8 3 5 (by decide) (by decide) (by decide) (by decide)⟩

/-! ### C1: the OR proof binding constraint is taken mod p, not mod q -/

lemma orMidCh_length (n : Nat) (j : Int) (simCh : Nat → Nat) :
    (orMidCh n j simCh).length = n := by
  simp [orMidCh]

lemma getD_set_self (l : List Nat) (i v : Nat) (h : i < l.length) :
    (l.set i v).getD i 0 = v := by
  rw [List.getD_eq_getElem?_getD, List.getElem?_set_self h]
  rfl

lemma getD_set_ne (l : List Nat) (i k v : Nat) (h : i ≠ k) :
    (l.set i v).getD k 0 = l.getD k 0 := by
  rw [List.getD_eq_getElem?_getD, List.getElem?_set_ne h, ← List.getD_eq_getElem?_getD]

/-- C1 (amended): the binding constraint of the disjunctive proof is taken
modulo the group MODULUS `p` on both sides, not modulo the order `q`: the
prover computes the real sub-challenge as `(master - Σ other sub-challenges)
mod p`, and the verifier accepts only if the sum of the supplied
sub-challenges is congruent to the recomputed master challenge modulo `p`. -/
theorem C1_amended (G_q : SchnorrGroup) (g y a b r : Nat) (c_prime : List ElGamalCiphertext)
    (j : Int) (r_j w_j : Nat) (simRes simCh : Nat → Nat)
    (hj0 : 0 ≤ j) (hjn : j < (c_prime.length : Int))
    (hga : Nat.gcd a G_q.p = 1) (hgb : Nat.gcd b G_q.p = 1) :
    (∃ t res ch, proof_plaintext_equality_or G_q g y a b r c_prime j r_j w_j simRes simCh
        = some (t, res, ch)
      ∧ ch.getD j.toNat 0 =
          (((hashfunc G_q (orHashInput a b c_prime t) : Int)
            - (((((List.range c_prime.length).filter fun i => Int.ofNat i ≠ j).map
                  fun i => ch.getD i 0).sum : Nat) : Int)).emod (G_q.p : Int)).toNat)
    ∧ ∀ t res ch, verify_plaintext_equality_or G_q (t, res, ch) g y a b c_prime = some true
        → hashfunc G_q (orHashInput a b c_prime t) = ch.sum % G_q.p := by
  constructor
  · have hpy : pyNorm j c_prime.length = some j.toNat := by
      unfold pyNorm
      rw [if_pos ⟨hj0, hjn⟩]
    unfold proof_plaintext_equality_or
    simp only [hpy]
    rw [if_neg (by push_neg; exact ⟨hga, hgb⟩)]
    refine ⟨_, _, _, rfl, ?_⟩
    have hjlt : j.toNat < c_prime.length := by omega
    rw [getD_set_self _ _ _ (by rw [orMidCh_length]; exact hjlt)]
    have hmap : (((List.range c_prime.length).filter fun i => Int.ofNat i ≠ j).map
          fun i => ((orMidCh c_prime.length j simCh).set j.toNat
            ((((hashfunc G_q (orHashInput a b c_prime
                  (orT G_q g y a b c_prime j w_j simRes simCh)) : Int)
              - (orOthersSum c_prime.length j simCh : Int)).emod (G_q.p : Int)).toNat)).getD i 0)
        = (((List.range c_prime.length).filter fun i => Int.ofNat i ≠ j).map
          fun i => (orMidCh c_prime.length j simCh).getD i 0) := by
      apply List.map_congr_left
      intro i hi
      apply getD_set_ne
      have hne : Int.ofNat i ≠ j := of_decide_eq_true (List.mem_filter.mp hi).2
      rw [Int.ofNat_eq_coe] at hne
      omega
    rw [hmap]
    rfl
  · intro t res ch hver
    unfold verify_plaintext_equality_or at hver
    by_cases hlen : ch.length = res.length ∧ res.length = t.length ∧ t.length = c_prime.length
    · rw [if_neg (not_not_intro hlen)] at hver
      by_cases hgcd : Nat.gcd a G_q.p ≠ 1 ∨ Nat.gcd b G_q.p ≠ 1
      · rw [if_pos hgcd] at hver
        cases hver
      · rw [if_neg hgcd] at hver
        simp only [Option.some.injEq, Bool.and_eq_true, beq_iff_eq] at hver
        exact hver.1
    · rw [if_pos hlen] at hver
      cases hver

/-- Concrete simulated responses used by the C1/C3 concrete instances. -/
def orWitSimRes (i : Nat) : Nat := if i = 1 then 7 else 0

/-- Concrete simulated sub-challenges used by the C1/C3 concrete instances. -/
def orWitSimCh (i : Nat) : Nat := if i = 1 then 10 else 0

/-- Witness for C1 (amended) at the toy group `p = 23`, `q = 11`. -/
theorem C1_amended_witness :
    (0 : Int) ≤ 0 ∧ (0 : Int) < (([⟨6, 13⟩, ⟨12, 18⟩] : List ElGamalCiphertext).length : Int)
      ∧ Nat.gcd 3 23 = 1 ∧ Nat.gcd 9 23 = 1
      ∧ ((∃ t res ch,
            proof_plaintext_equality_or ⟨23, 11⟩ 4 8 3 9 5 [⟨6, 13⟩, ⟨12, 18⟩] 0 2 3
              orWitSimRes orWitSimCh = some (t, res, ch)
          ∧ ch.getD (0 : Int).toNat 0 =
              (((hashfunc ⟨23, 11⟩ (orHashInput 3 9 [⟨6, 13⟩, ⟨12, 18⟩] t) : Int)
                - (((((List.range ([⟨6, 13⟩, ⟨12, 18⟩] : List ElGamalCiphertext).length).filter
                        fun i => Int.ofNat i ≠ (0 : Int)).map
                      fun i => ch.getD i 0).sum : Nat) : Int)).emod ((23 : Nat) : Int)).toNat)
        ∧ ∀ t res ch,
            verify_plaintext_equality_or ⟨23, 11⟩ (t, res, ch) 4 8 3 9 [⟨6, 13⟩, ⟨12, 18⟩]
              = some true
            → hashfunc ⟨23, 11⟩ (orHashInput 3 9 [⟨6, 13⟩, ⟨12, 18⟩] t) = ch.sum % 23) :=
  ⟨by decide, by decide, by decide, by decide,
    C1_amended ⟨23, 11⟩ 4 8 3 9 5 [⟨6, 13⟩, ⟨12, 18⟩] 0 2 3 orWitSimRes orWitSimCh
      (by decide) (by decide) (by decide) (by decide)⟩

/-- C1 counterexample: on a concrete run of the prover (group `p = 23`,
`q = 11`, true index `j = 0`, one simulated sub-challenge equal to `10`), the
returned real sub-challenge is `21` — the value of
`(master - Σ others) mod 23` — whereas the claim's formula
`(master - Σ others) mod q = mod 11` yields `9`; the claim is false on the
code. -/
theorem C1_counterexample :
    (proof_plaintext_equality_or ⟨23, 11⟩ 4 8 3 9 5 [⟨6, 13⟩, ⟨12, 18⟩] 0 2 3
        orWitSimRes orWitSimCh).map
      (fun tr => (tr.2.2.getD 0 0,
        (((hashfunc ⟨23, 11⟩ (orHashInput 3 9 [⟨6, 13⟩, ⟨12, 18⟩] tr.1) : Int)
          - ((((List.range 2).filter fun i => Int.ofNat i ≠ (0 : Int)).map
                fun i => tr.2.2.getD i 0).sum : Int)).emod (11 : Int)).toNat))
      = some (21, 9) := by decide

/-! ### C2: structural mismatches raise, they do not return false -/

/-- C2 counterexample: a transcript whose `t`/`res`/`challenges` lists are
empty while one ciphertext alternative is supplied makes
`verify_plaintext_equality_or` raise (the length `assert`), embedded as
`none` — it does not return the boolean `false` the claim promises. -/
theorem C2_counterexample :
    verify_plaintext_equality_or ⟨23, 11⟩ ([], [], []) 4 8 3 9 [⟨6, 13⟩] = none := by decide

/-- C2 (amended): `verify_plaintext_equality_or` raises `AssertionError`
(embedded `none`) exactly on transcript-arity mismatch, and returns a boolean
on matching arities (given invertible `c.a`, `c.b`); `verify_dl_equal_ddl`
raises exactly when the asserted group preconditions fail, and returns a
boolean otherwise — cryptographic mismatches, including challenge-length
mismatches in `verify_dl_equal_ddl`, present as `false`, but structural arity
violations of the OR verifier and precondition violations of the
double-discrete-log verifier raise instead of returning `false`. -/
theorem C2_amended :
    (∀ (G_q : SchnorrGroup) (g y a b : Nat) (t : List (Nat × Nat)) (res ch : List Nat)
        (c_prime : List ElGamalCiphertext),
        ¬(ch.length = res.length ∧ res.length = t.length ∧ t.length = c_prime.length) →
        verify_plaintext_equality_or G_q (t, res, ch) g y a b c_prime = none)
    ∧ (∀ (G_q : SchnorrGroup) (g y a b : Nat) (t : List (Nat × Nat)) (res ch : List Nat)
        (c_prime : List ElGamalCiphertext),
        (ch.length = res.length ∧ res.length = t.length ∧ t.length = c_prime.length) →
        Nat.gcd a G_q.p = 1 → Nat.gcd b G_q.p = 1 →
        (verify_plaintext_equality_or G_q (t, res, ch) g y a b c_prime).isSome = true)
    ∧ (∀ (proof : List Nat × List Nat) (G_q G_r : SchnorrGroup) (g h y A B : Nat),
        ¬ddlPreconds G_q G_r g h y A B →
        verify_dl_equal_ddl proof G_q G_r g h y A B = none)
    ∧ (∀ (proof : List Nat × List Nat) (G_q G_r : SchnorrGroup) (g h y A B : Nat),
        ddlPreconds G_q G_r g h y A B →
        (verify_dl_equal_ddl proof G_q G_r g h y A B).isSome = true) := by
  refine ⟨?_, ?_, ?_, ?_⟩
  · intro G_q g y a b t res ch c_prime hlen
    unfold verify_plaintext_equality_or
    rw [if_pos hlen]
  · intro G_q g y a b t res ch c_prime hlen hga hgb
    unfold verify_plaintext_equality_or
    rw [if_neg (not_not_intro hlen), if_neg (by push_neg; exact ⟨hga, hgb⟩)]
    rfl
  · intro proof G_q G_r g h y A B hpre
    unfold verify_dl_equal_ddl
    rw [if_pos hpre]
  · intro proof G_q G_r g h y A B hpre
    unfold verify_dl_equal_ddl
    rw [if_neg (not_not_intro hpre)]
    rfl

/-- Witness for C2 (amended): a concrete raising arity mismatch and a
concrete non-raising double-discrete-log verification. -/
theorem C2_amended_witness :
    (¬(([] : List Nat).length = ([] : List Nat).length
        ∧ ([] : List Nat).length = ([] : List (Nat × Nat)).length
        ∧ ([] : List (Nat × Nat)).length = ([⟨6, 13⟩] : List ElGamalCiphertext).length)
      ∧ verify_plaintext_equality_or ⟨23, 11⟩ ([], [], []) 4 8 3 9 [⟨6, 13⟩] = none)
    ∧ (ddlPreconds ⟨23, 11⟩ ⟨11, 5⟩ 4 3 9 9 3
      ∧ (verify_dl_equal_ddl ([], []) ⟨23, 11⟩ ⟨11, 5⟩ 4 3 9 9 3).isSome = true) :=
  ⟨⟨by decide, C2_amended.1 ⟨23, 11⟩ 4 8 3 9 [] [] [] [⟨6, 13⟩] (by decide)⟩,
   ⟨by decide, C2_amended.2.2.2 ([], []) ⟨23, 11⟩ ⟨11, 5⟩ 4 3 9 9 3 (by decide)⟩⟩

/-! ### C3: an out-of-range true index can crash the OR prover -/

/-- C3 counterexample: with one alternative and `j = 1` (outside
`[0, len(c_prime))`), the prover raises `IndexError` at the `t[j]` assignment
(embedded `none`) instead of returning a transcript. -/
theorem C3_counterexample :
    proof_plaintext_equality_or ⟨23, 11⟩ 4 8 3 9 5 [⟨6, 13⟩] 1 2 3 orWitSimRes orWitSimCh
      = none := by decide

/-- C3 (amended): for `j` outside `[-n, n)` (`n = len(c_prime)`) the prover
raises `IndexError` (embedded `none`); for negative `j` in `[-n, 0)` — also
outside the documented range `[0, n)` — Python's negative indexing applies
and the prover returns a transcript without crashing (given invertible
`c.a`, `c.b`). -/
theorem C3_amended (G_q : SchnorrGroup) (g y a b r : Nat) (c_prime : List ElGamalCiphertext)
    (j : Int) (r_j w_j : Nat) (simRes simCh : Nat → Nat) :
    ((j < -(c_prime.length : Int) ∨ (c_prime.length : Int) ≤ j) →
      proof_plaintext_equality_or G_q g y a b r c_prime j r_j w_j simRes simCh = none)
    ∧ ((-(c_prime.length : Int) ≤ j ∧ j < 0) → Nat.gcd a G_q.p = 1 → Nat.gcd b G_q.p = 1 →
      (proof_plaintext_equality_or G_q g y a b r c_prime j r_j w_j simRes simCh).isSome
        = true) := by
  constructor
  · intro hout
    have hpy : pyNorm j c_prime.length = none := by
      unfold pyNorm
      rw [if_neg (by omega), if_neg (by omega)]
    unfold proof_plaintext_equality_or
    simp only [hpy]
  · intro hin hga hgb
    have hpy : pyNorm j c_prime.length = some ((c_prime.length : Int) + j).toNat := by
      unfold pyNorm
      rw [if_neg (by omega), if_pos (by omega)]
    unfold proof_plaintext_equality_or
    simp only [hpy]
    rw [if_neg (by push_neg; exact ⟨hga, hgb⟩)]
    rfl

/-- Witness for C3 (amended): `j = 1` crashes with one alternative, `j = -1`
returns a transcript. -/
theorem C3_amended_witness :
    (((1 : Int) < -(([⟨6, 13⟩] : List ElGamalCiphertext).length : Int)
        ∨ (([⟨6, 13⟩] : List ElGamalCiphertext).length : Int) ≤ 1)
      ∧ proof_plaintext_equality_or ⟨23, 11⟩ 4 8 3 9 5 [⟨6, 13⟩] 1 2 3 orWitSimRes orWitSimCh
          = none)
    ∧ ((-(([⟨6, 13⟩] : List ElGamalCiphertext).length : Int) ≤ -1 ∧ (-1 : Int) < 0)
      ∧ (proof_plaintext_equality_or ⟨23, 11⟩ 4 8 3 9 5 [⟨6, 13⟩] (-1) 2 3
          orWitSimRes orWitSimCh).isSome = true) :=
  ⟨⟨by decide,
    (C3_amended ⟨23, 11⟩ 4 8 3 9 5 [⟨6, 13⟩] 1 2 3 orWitSimRes orWitSimCh).1 (by decide)⟩,
   ⟨by decide,
    (C3_amended ⟨23, 11⟩ 4 8 3 9 5 [⟨6, 13⟩] (-1) 2 3 orWitSimRes orWitSimCh).2
      (by decide) (by decide) (by decide)⟩⟩

/-! ### C9: the double-discrete-log inner exponent is reduced mod the inner
modulus, not mod the inner order -/

/-- Written from claim C9's words: the verifier it describes, whose inner
exponentiation `y ^ r_i` is reduced modulo the inner group ORDER `r`
(`G_r.q`), the rest as in the code. -/
def claimed_verify_dl_equal_ddl (proof : List Nat × List Nat) (G_q G_r : SchnorrGroup)
    (g h y A B : Nat) : Bool :=
  let c := proof.1
  let r := proof.2
  let t_g := (r.zip c).map fun rc => G_q.powmod (if rc.2 ≠ 0 then B else g) (y ^ rc.1 % G_r.q)
  let t_h := (r.zip c).map fun rc => G_r.powmod h rc.1 * G_r.powmod A rc.2 % G_r.p
  decide (c = hashfunc_bits ([g, h, y, A, B] ++ t_g ++ t_h))

/-- The per-round randomness of the concrete C9 prover run. -/
def ddlWitnessRand (i : Nat) : Nat := i % 5

/-- C9 counterexample: an honestly generated transcript (outer group
`p = 23`, `q = 11`; inner group modulus `11`, order `5`; `g = 4`, `h = 3`,
`y = 9`, `x = 2`, `A = h^x mod 11 = 9`, `B = g^(y^x mod 11) mod 23 = 3`) is
accepted by `verify_dl_equal_ddl`, yet the verifier described by the claim —
inner exponent `y^r_i` reduced mod the inner ORDER `r = 5` instead of the
inner modulus `11` — rejects it: the claim's characterization of the
recomputation is false on the code. -/
theorem C9_counterexample :
    (proof_dl_equal_ddl ⟨23, 11⟩ ⟨11, 5⟩ 4 3 9 9 3 2 ddlWitnessRand).map
      (fun pr => (verify_dl_equal_ddl pr ⟨23, 11⟩ ⟨11, 5⟩ 4 3 9 9 3,
        claimed_verify_dl_equal_ddl pr ⟨23, 11⟩ ⟨11, 5⟩ 4 3 9 9 3))
      = some (some true, false) := by rfl

lemma beq_eq_decide_list (c d : List Nat) : (c == d) = decide (c = d) := by
  by_cases h : c = d
  · subst h
    simp
  · rw [beq_eq_false_iff_ne.mpr h, decide_eq_false h]

/-- C9 (amended): when the asserted preconditions hold,
`verify_dl_equal_ddl` recomputes, for each supplied bit `c_i` paired with
response `r_i`, `t_g_i = (g if c_i = 0 else B) ^ (y^r_i mod q') mod p` with
`q'` the INNER MODULUS (`G_r.p`, which equals the outer order), and
`t_h_i = h^r_i * A^c_i mod q'`, then accepts iff the recomputed
256-bit challenge vector exactly equals the supplied one. -/
theorem C9_amended (G_q G_r : SchnorrGroup) (g h y A B : Nat) (c r : List Nat)
    (hpre : ddlPreconds G_q G_r g h y A B) :
    verify_dl_equal_ddl (c, r) G_q G_r g h y A B =
      some (decide (c = hashfunc_bits ([g, h, y, A, B]
        ++ ((r.zip c).map fun rc => G_q.powmod (if rc.2 ≠ 0 then B else g) (y ^ rc.1 % G_r.p))
        ++ ((r.zip c).map fun rc => G_r.powmod h rc.1 * G_r.powmod A rc.2 % G_r.p)))) := by
  unfold verify_dl_equal_ddl
  rw [if_neg (not_not_intro hpre)]
  refine congrArg some ?_
  rw [beq_eq_decide_list]
  rfl

/-- Witness for C9 (amended) at the toy nested groups and the empty
transcript. -/
theorem C9_amended_witness :
    ddlPreconds ⟨23, 11⟩ ⟨11, 5⟩ 4 3 9 9 3 ∧
      verify_dl_equal_ddl ([], []) ⟨23, 11⟩ ⟨11, 5⟩ 4 3 9 9 3 =
        some (decide (([] : List Nat) = hashfunc_bits ([4, 3, 9, 9, 3]
          ++ ((([] : List Nat).zip ([] : List Nat)).map
                fun rc => SchnorrGroup.powmod ⟨23, 11⟩ (if rc.2 ≠ 0 then 3 else 4)
                  (9 ^ rc.1 % 11))
          ++ ((([] : List Nat).zip ([] : List Nat)).map
                fun rc => SchnorrGroup.powmod ⟨11, 5⟩ 3 rc.1
                  * SchnorrGroup.powmod ⟨11, 5⟩ 9 rc.2 % 11)))) :=
  ⟨by decide, C9_amended ⟨23, 11⟩ ⟨11, 5⟩ 4 3 9 9 3 [] [] (by decide)⟩

/-! ### C10: a challenge list of the wrong length is always rejected -/

/-- C10: for a transcript whose challenge list does not have exactly 256
entries, under the checked group preconditions, `verify_dl_equal_ddl`
returns `false`: the recomputed challenge vector always has exactly 256
entries (the paired iteration over `r` and `c` truncates silently rather
than rejecting up front), so the final exact-equality comparison cannot
succeed. -/
theorem C10_ddl_length_mismatch (G_q G_r : SchnorrGroup) (g h y A B : Nat)
    (c r : List Nat) (hpre : ddlPreconds G_q G_r g h y A B) (hc : c.length ≠ 256) :
    verify_dl_equal_ddl (c, r) G_q G_r g h y A B = some false := by
  unfold verify_dl_equal_ddl
  rw [if_neg (not_not_intro hpre)]
  refine congrArg some ?_
  rw [beq_eq_false_iff_ne]
  intro hEq
  exact hc (by rw [show c = _ from hEq]; exact hashfunc_bits_length _)

/-- Witness for C10 at a concrete one-bit transcript. -/
theorem C10_ddl_length_mismatch_witness :
    ddlPreconds ⟨23, 11⟩ ⟨11, 5⟩ 4 3 9 9 3 ∧ ([0] : List Nat).length ≠ 256 ∧
      verify_dl_equal_ddl ([0], [0]) ⟨23, 11⟩ ⟨11, 5⟩ 4 3 9 9 3 = some false :=
  ⟨by decide, by decide,
    C10_ddl_length_mismatch ⟨23, 11⟩ ⟨11, 5⟩ 4 3 9 9 3 [0] [0] (by decide) (by decide)⟩
